import Mathlib

/-
Verification of the value-standardization and schema-remapping engine of the
tcia-clinical-validator repository.  The definitions below are shallow
embeddings of the Python functions in src/tcia-remapping-skill/remap_helper.py,
src/tcia-remapping-skill/mdf_parser.py and src/tcia-clinical-validator.py:
pandas data frames become a header plus a list of rows of optional-string
cells, Python dicts become association lists with the same first-key-wins
lookup and last-assignment-wins construction, and difflib scoring is modelled
over rational numbers.
-/

/-- Cell of a data frame: none models a pandas missing value (NaN), some s a
string cell. -/
abbrev Cell := Option String

/-- Data frame: a column header and the rows, each row listing one cell per
header entry. -/
structure DF where
  header : List String
  rows : List (List Cell)
deriving DecidableEq

/-- Python dict lookup on an association list: the first binding of the key
wins (Python dicts hold each key once, so this is exact). -/
def alookup {α : Type} (d : List (String × α)) (k : String) : Option α :=
  match d with
  | [] => none
  | (k0, v0) :: rest => if k0 = k then some v0 else alookup rest k

/-- Python dict.get with a default value. -/
def alookupD {α : Type} (d : List (String × α)) (k : String) (dflt : α) : α :=
  match alookup d k with
  | some v => v
  | none => dflt

/-- Python dict assignment d[k] = v on an association list: replaces the value
of an existing key in place, otherwise appends the new binding at the end,
matching dict insertion-order semantics. -/
def aupsert {α : Type} (d : List (String × α)) (k : String) (v : α) : List (String × α) :=
  match d with
  | [] => [(k, v)]
  | (k0, v0) :: rest => if k0 = k then (k0, v) :: rest else (k0, v0) :: aupsert rest k v

/-- Order-preserving first-occurrence deduplication, the semantics of both
pandas drop_duplicates and pandas Series.unique.  The seen accumulator lists
the values already emitted. -/
def dedupFirstAux {α : Type} [DecidableEq α] (seen : List α) : List α → List α
  | [] => []
  | x :: xs => if x ∈ seen then dedupFirstAux seen xs else x :: dedupFirstAux (x :: seen) xs

/-- Order-preserving first-occurrence deduplication of a list. -/
def dedupFirst {α : Type} [DecidableEq α] (l : List α) : List α :=
  dedupFirstAux [] l

/-- Index of a column name in a header, 0-based; length of the list when
absent (rows are uniform, so the absent case is never hit on well-formed
frames). -/
def colIdx : List String → String → Nat
  | [], _ => 0
  | h :: t, s => if h = s then 0 else colIdx t s + 1

/-- Cells of one named column of a frame, in row order, the embedding of
df[col]. -/
def colCells (df : DF) (col : String) : List Cell :=
  df.rows.map (fun r => r.getD (colIdx df.header col) none)

/-
Character-level string utilities.  The embeddings use these structural
definitions of lowercasing, stripping, splitting, joining and comparison (the
vocabularies involved are ASCII, on which they agree with the Python string
methods they model).
-/

/-- Python str.lower, character by character. -/
def pyLower (s : String) : String :=
  String.mk (s.data.map Char.toLower)

/-- Whitespace as stripped by Python str.strip on the data at hand. -/
def isSpaceChar (c : Char) : Bool :=
  c = ' ' || c = '\t' || c = '\n' || c = '\r'

/-- Drop leading whitespace characters. -/
def dropLeadingSpace : List Char → List Char
  | [] => []
  | c :: cs => if isSpaceChar c then dropLeadingSpace cs else c :: cs

/-- Python str.strip: leading and trailing whitespace removed. -/
def pyStrip (s : String) : String :=
  String.mk (dropLeadingSpace (dropLeadingSpace s.data.reverse).reverse)

/-- Split a character list on semicolons; the empty list yields one empty
piece, as Python str.split with an explicit separator does. -/
def splitSemiChars : List Char → List (List Char)
  | [] => [[]]
  | c :: cs =>
    if c = ';' then [] :: splitSemiChars cs
    else
      match splitSemiChars cs with
      | [] => [[c]]
      | piece :: rest => (c :: piece) :: rest

/-- Python s.split on a semicolon. -/
def pySplitSemi (s : String) : List String :=
  (splitSemiChars s.data).map (fun l => String.mk l)

/-- Python semicolon.join. -/
def joinSemi : List String → String
  | [] => ""
  | [s] => s
  | s :: rest => s ++ ";" ++ joinSemi rest

/-- Whether the first character list is a leading segment of the second. -/
def leadsChars : List Char → List Char → Bool
  | [], _ => true
  | _ :: _, [] => false
  | p :: ps, c :: cs => p = c && leadsChars ps cs

/-- Python str.startswith. -/
def pyStartsWith (s pre : String) : Bool :=
  leadsChars pre.data s.data

/-- Strict lexicographic comparison of character lists by code point, the
Python string less-than. -/
def strLtChars : List Char → List Char → Bool
  | [], [] => false
  | [], _ :: _ => true
  | _ :: _, [] => false
  | x :: xs, y :: ys =>
    if x.toNat < y.toNat then true
    else if y.toNat < x.toNat then false
    else strLtChars xs ys

/-- Python string less-than by code points. -/
def pyStrLt (a b : String) : Bool := strLtChars a.data b.data

/-- Python string less-or-equal by code points, as a relation for sorting. -/
def pyStrLe (a b : String) : Prop := strLtChars b.data a.data = false

instance : DecidableRel pyStrLe := fun _ _ => instDecidableEqBool _ _

/-
Embedding of src/tcia-remapping-skill/mdf_parser.py.
-/

/-- Scalar YAML value as far as the Key and Req checks of the MDF parser look
at it: either a string token or a boolean. -/
inductive YVal where
  | s (v : String)
  | b (v : Bool)
deriving DecidableEq

/-- One entry of the PropDefinitions document: the fields read by
transform_mdf_to_schema. -/
structure PropDef where
  Key : Option YVal
  Req : Option YVal
  Desc : Option String
  Enum : Option (List String)
deriving DecidableEq

/-- One entry of the Terms document: ontology metadata of one enum value. -/
structure TermDef where
  Code : Option String
  Definition : Option String
  Origin : Option String
deriving DecidableEq

/-- One relationship end as written in the MDF model document. -/
structure RelEnd where
  Src : String
  Dst : String
deriving DecidableEq

/-- One relationship: its list of Ends. -/
structure RelInfo where
  Ends : List RelEnd
deriving DecidableEq

/-- The MDF model document: node name to list of property names, plus the
relationship declarations. -/
structure MdfModel where
  Nodes : List (String × List String)
  Relationships : List (String × RelInfo)
deriving DecidableEq

/-- One permissible value with optional ontology metadata, the dict built by
transform_mdf_to_schema for each Enum entry. -/
structure PermissibleValue where
  value : String
  code : Option String
  definition : Option String
  origin : Option String
deriving DecidableEq

/-- One property entry of the transformed schema: the dict with keys Property,
Description and Required/optional built by transform_mdf_to_schema. -/
structure PropEntry where
  Property : String
  Description : Option String
  required_optional : String
deriving DecidableEq

/-- The transformed schema: entity name to its ordered property entries. -/
abbrev Schema := List (String × List PropEntry)

/-- Truthiness of the Key field: the source tests membership of
prop_def.get(Key) in the list [True-string, Yes-string, True]. -/
def isKeyFlag : Option PropDef → Bool
  | none => false
  | some pd =>
    match pd.Key with
    | some (.s v) => v = "True" || v = "Yes"
    | some (.b v) => v
    | none => false

/-- First pass of transform_mdf_to_schema: for each node, the first property
whose definition carries a truthy Key flag, if any. -/
def node_keys (model : MdfModel) (prop_definitions : List (String × PropDef)) :
    List (String × String) :=
  model.Nodes.filterMap (fun n =>
    match n.2.find? (fun pn => isKeyFlag (alookup prop_definitions pn)) with
    | some pn => some (n.1, pn)
    | none => none)

/-- Req normalization of transform_mdf_to_schema: Yes or boolean true maps to
R, everything else (No, false, absent, other) to O. -/
def reqStatus : Option YVal → String
  | some (.s v) => if v = "Yes" then "R" else "O"
  | some (.b v) => if v then "R" else "O"
  | _ => "O"

/-- Property entry built for one declared property name: description and
requiredness come from the (possibly absent) property definition. -/
def mkPropEntry (prop_name : String) (pd : Option PropDef) : PropEntry :=
  { Property := prop_name
  , Description := match pd with | some d => d.Desc | none => none
  , required_optional := reqStatus (match pd with | some d => d.Req | none => none) }

/-- Permissible-value record for one Enum value, enriched from the Terms
document when a (non-empty) term entry exists; the source skips enrichment
when the term dict is empty, which coincides with the all-none record. -/
def mkPermissibleValue (terms : List (String × TermDef)) (val : String) : PermissibleValue :=
  match alookup terms val with
  | some t => { value := val, code := t.Code, definition := t.Definition, origin := t.Origin }
  | none => { value := val, code := none, definition := none, origin := none }

/-- Linkage-injection loop of transform_mdf_to_schema: for every relationship
end whose Src is this node and whose Dst has a primary key, append the
property dst-lowercased dot key unless an entry of that name is already
present. -/
def injectLinkages (relationships : List (String × RelInfo)) (nkeys : List (String × String))
    (node_name : String) (props0 : List PropEntry) : List PropEntry :=
  relationships.foldl (fun acc rel =>
    rel.2.Ends.foldl (fun acc2 e =>
      if e.Src = node_name then
        match alookup nkeys e.Dst with
        | some dst_key =>
          let linkage_prop := pyLower e.Dst ++ "." ++ dst_key
          if acc2.any (fun p => p.Property = linkage_prop) then acc2
          else acc2 ++ [{ Property := linkage_prop
                        , Description := some ("Automatically injected linkage to " ++ e.Dst)
                        , required_optional := "O" }]
        | none => acc2
      else acc2) acc) props0

/-- Property list built for one node: one entry per declared property (missing
definitions default silently), then the injected linkage properties. -/
def nodeProps (model : MdfModel) (prop_definitions : List (String × PropDef))
    (node_name : String) (props : List String) : List PropEntry :=
  injectLinkages model.Relationships (node_keys model prop_definitions) node_name
    (props.map (fun pn => mkPropEntry pn (alookup prop_definitions pn)))

/-- Vocabulary entries contributed by one node: for each declared property
whose definition carries an Enum, the permissible-value list. -/
def nodeEnums (prop_definitions : List (String × PropDef)) (terms : List (String × TermDef))
    (props : List String) : List (String × List PermissibleValue) :=
  props.filterMap (fun pn =>
    match alookup prop_definitions pn with
    | some pd =>
      match pd.Enum with
      | some vals => some (pn, vals.map (mkPermissibleValue terms))
      | none => none
    | none => none)

/-- One iteration of the main node loop of transform_mdf_to_schema: the node
entry is assigned into the schema dict and its enums into the
permissible-value dict. -/
def transformStep (model : MdfModel) (prop_definitions : List (String × PropDef))
    (terms : List (String × TermDef))
    (acc : Schema × List (String × List PermissibleValue)) (n : String × List String) :
    Schema × List (String × List PermissibleValue) :=
  (aupsert acc.1 n.1 (nodeProps model prop_definitions n.1 n.2),
   (nodeEnums prop_definitions terms n.2).foldl (fun pvAcc e => aupsert pvAcc e.1 e.2) acc.2)

/-- Embedding of transform_mdf_to_schema of mdf_parser.py: returns the schema,
the permissible-value map and the relationships.  The function is total: a
property name whose definition is missing from PropDefinitions is defaulted
with dict.get, never an error. -/
def transform_mdf_to_schema (model : MdfModel) (prop_definitions : List (String × PropDef))
    (terms : List (String × TermDef)) :
    Schema × List (String × List PermissibleValue) × List (String × RelInfo) :=
  let res := model.Nodes.foldl (transformStep model prop_definitions terms) ([], [])
  (res.1, res.2, model.Relationships)

/-
Embedding of the vocabulary matcher of src/tcia-clinical-validator.py.
-/

/-- Embedding of get_correct_value of tcia-clinical-validator.py: the source
builds a dict from lowercased vocabulary value to value (a later entry
overrides an earlier one with the same lowercased form) and looks up the
lowercased candidate, so the last case-insensitive match wins. -/
def get_correct_value (value : String) (valid_values : List String) : Option String :=
  valid_values.reverse.find? (fun v => pyLower v == pyLower value)

/-- The hardcoded Race vocabulary of tcia-clinical-validator.py. -/
def permissible_race : List String :=
  [ "American Indian or Alaska Native", "Asian", "Black or African American"
  , "Native Hawaiian or Other Pacific Islander", "Not Allowed To Collect"
  , "Not Reported", "Unknown", "White" ]

/-- The hardcoded Ethnicity vocabulary of tcia-clinical-validator.py. -/
def permissible_ethnicity : List String :=
  [ "Hispanic or Latino", "Not Allowed To Collect"
  , "Not Hispanic or Latino", "Not Reported", "Unknown" ]

/-- Embedding of the is_valid closure inside validate_categorical_column of
tcia-clinical-validator.py: a missing value is valid; a Race cell is split on
semicolons with each stripped token checked case-insensitively; any other
column is checked as a whole via get_correct_value. -/
def validate_categorical_is_valid (column : String) (valid_values : List String)
    (value : Cell) : Bool :=
  match value with
  | none => true
  | some s =>
    if column = "Race" then
      (pySplitSemi s).all (fun race => (get_correct_value (pyStrip race) valid_values).isSome)
    else (get_correct_value s valid_values).isSome

/-- Sorted set of strings: the embedding of Python sorted(set(xs)), the
strictly increasing enumeration of the distinct elements. -/
def sortedDedup (xs : List String) : List String :=
  (dedupFirst xs).insertionSort pyStrLe

/-- One token of the race-fixing pass of validate_and_clean_data: the token is
stripped, case-corrected against the Race vocabulary, and kept unchanged when
no (truthy, hence non-empty) correction is found. -/
def fixRaceToken (race : String) : String :=
  let r := pyStrip race
  match get_correct_value r permissible_race with
  | some c => if c = "" then r else c
  | none => r

/-- Embedding of fix_race_values of tcia-clinical-validator.py: a missing cell
is returned unchanged; otherwise the cell is split on semicolons, each token
stripped and case-corrected, and the result is the semicolon join of the
sorted set of the fixed tokens. -/
def fix_race_values (cell : Cell) : Cell :=
  match cell with
  | none => none
  | some s =>
    let fixed_races := (pySplitSemi s).map fixRaceToken
    some (joinSemi (sortedDedup fixed_races))

/-
Embedding of difflib sequence matching as used by get_closest_match of
remap_helper.py.  The model covers the junk-free case (no junk argument is
passed and autojunk only engages on sequences of 200 or more characters,
far beyond the vocabulary strings involved).
-/

/-- Length of the longest common prefix of two character lists. -/
def lcp : List Char → List Char → Nat
  | x :: xs, y :: ys => if x = y then lcp xs ys + 1 else 0
  | _, _ => 0

/-- Longest matching block of two character lists, the documented semantics of
difflib find_longest_match: among the maximal matching blocks the one starting
earliest in the first sequence, then earliest in the second, returned as
(start in a, start in b, length). -/
def findLongestMatch (a b : List Char) : Nat × Nat × Nat :=
  let cands := (List.range a.length).flatMap (fun i =>
    (List.range b.length).map (fun j => (i, j, lcp (a.drop i) (b.drop j))))
  cands.foldl (fun best c => if best.2.2 < c.2.2 then c else best) (0, 0, 0)

/-- Total size of the matching blocks of difflib get_matching_blocks: the
longest match is taken and the regions strictly before and strictly after it
are processed recursively.  The fuel bounds the recursion depth; every
recursive call shortens the first sequence, so any fuel above its length is
enough. -/
def matchingSumFuel : Nat → List Char → List Char → Nat
  | 0, _, _ => 0
  | fuel + 1, a, b =>
    let m := findLongestMatch a b
    let i := m.1
    let j := m.2.1
    let k := m.2.2
    if k = 0 then 0
    else matchingSumFuel fuel (a.take i) (b.take j) + k
         + matchingSumFuel fuel (a.drop (i + k)) (b.drop (j + k))

/-- Total number of matched characters between two character lists. -/
def matchingSum (a b : List Char) : Nat :=
  matchingSumFuel (a.length + 1) a b

/-- Exact rational score kept as an unreduced numerator and denominator pair;
comparisons cross-multiply, so no normalization is needed. -/
abbrev Score := Nat × Nat

/-- Rational less-or-equal on score pairs by cross multiplication. -/
def qleB (p q : Score) : Bool := decide (p.1 * q.2 ≤ q.1 * p.2)

/-- Rational strict less-than on score pairs by cross multiplication. -/
def qltB (p q : Score) : Bool := decide (p.1 * q.2 < q.1 * p.2)

/-- Rational equality on score pairs by cross multiplication. -/
def qeqB (p q : Score) : Bool := decide (p.1 * q.2 = q.1 * p.2)

/-- Embedding of SequenceMatcher ratio with seq1 = a and seq2 = b: twice the
matched character count over the total length, and 1 for two empty sequences,
kept as an exact rational pair. -/
def ratioPair (a b : List Char) : Score :=
  let t := a.length + b.length
  if t = 0 then (1, 1) else (2 * matchingSum a b, t)

/-- Score of one choice against the candidate value, in the argument order of
get_close_matches, which sets seq2 to the candidate word and seq1 to the
choice. -/
def choiceScore (choice value : String) : Score :=
  ratioPair choice.data value.data

/-- Tuple comparison used by nlargest on (score, string) pairs: q beats the
current best when its score is larger, or equal with a lexicographically
greater string. -/
def pairGt (q best : Score × String) : Bool :=
  qltB best.1 q.1 || (qeqB best.1 q.1 && pyStrLt best.2 q.2)

/-- Choices that clear the cutoff, paired with their scores, in vocabulary
order: the filtering loop of get_close_matches (its quick-ratio tests are
upper bounds of ratio and only short-circuit, so the kept set is exactly the
ratio test). -/
def scoredChoices (value : String) (choices : List String) (cutoff : Score) :
    List (Score × String) :=
  (choices.map (fun x => (choiceScore x value, x))).filter (fun p => qleB cutoff p.1)

/-- Maximum of a non-empty scored list under the nlargest tuple order. -/
def bestPair (p : Score × String) (ps : List (Score × String)) : Score × String :=
  ps.foldl (fun best c => if pairGt c best then c else best) p

/-- Embedding of get_closest_match of remap_helper.py with n = 1, over a
vocabulary given as its value strings (for a dict vocabulary the source
extracts exactly these strings and maps the winner back): a missing or empty
(falsy) candidate yields none; otherwise the choices scoring at least the
cutoff are ranked by nlargest over (score, string) tuples and the top one is
returned, none when no choice qualifies. -/
def get_closest_match (value : Cell) (choices : List String) (cutoff : Score) : Option String :=
  match value with
  | none => none
  | some s =>
    if s = "" then none
    else
      match scoredChoices s choices cutoff with
      | [] => none
      | p :: ps => some (bestPair p ps).2

/-
Embedding of validate_dataframe of remap_helper.py.
-/

/-- Invalid values of one column, the inner loop of validate_dataframe: the
distinct cell values in first-occurrence order, skipping missing and
whitespace-only cells, keeping those not literally present in the valid set.
The membership test of the source is case-sensitive. -/
def invalidValsOf (valid_set : List String) (cells : List Cell) : List String :=
  (dedupFirst cells).filterMap (fun c =>
    match c with
    | none => none
    | some s =>
      if pyStrip s = "" then none
      else if s ∈ valid_set then none
      else some s)

/-- Report line of validate_dataframe for a value with a suggestion. -/
def reportSuggest (col val suggestion : String) : String :=
  "Column \x27" ++ col ++ "\x27: \x27" ++ val ++ "\x27 -> Suggested: \x27" ++ suggestion ++ "\x27"

/-- Report line of validate_dataframe for a value without a close match. -/
def reportNoMatch (col val : String) : String :=
  "Column \x27" ++ col ++ "\x27: \x27" ++ val ++ "\x27 -> No close match found."

/-- Per-column pass of validate_dataframe: for each invalid value, a
suggestion from get_closest_match at the default cutoff is recorded as a
correction and reported, and a missing suggestion is reported alone. -/
def colReportAndCorrections (col : String) (choices : List String) (cells : List Cell) :
    List String × List (String × String) :=
  (invalidValsOf choices cells).foldl (fun acc val =>
    match get_closest_match (some val) choices (3, 5) with
    | some suggestion =>
      (acc.1 ++ [reportSuggest col val suggestion], acc.2 ++ [(val, suggestion)])
    | none => (acc.1 ++ [reportNoMatch col val], acc.2)) ([], [])

/-- Embedding of validate_dataframe of remap_helper.py over a vocabulary map
given as value strings: walks the frame columns in order, checks exactly the
columns that are target properties of the named schema entity and carry a
vocabulary, and returns the report lines and the per-column correction
dicts (a column contributes a dict only when at least one correction was
found). -/
def validate_dataframe (df : DF) (schema_name : String) (schema : Schema)
    (permissible_values : List (String × List String)) :
    List String × List (String × List (String × String)) :=
  df.header.foldl (fun acc col =>
    if (alookupD schema schema_name []).any (fun p => p.Property = col) then
      match alookup permissible_values col with
      | some choices =>
        let rc := colReportAndCorrections col choices (colCells df col)
        (acc.1 ++ rc.1, acc.2 ++ (if rc.2 = [] then [] else [(col, rc.2)]))
      | none => acc
    else acc) ([], [])

/-
Embedding of the correction-application step, df[col].replace(dict) per
corrected column, shared by apply_corrections of tcia-clinical-validator.py
and the Apply Corrections handler of tcia-remapper.py.
-/

/-- Pandas Series.replace with a dict on one cell: a cell equal to some key
becomes that key mapping, in one simultaneous (non-chained) pass; missing
cells and unmatched cells are untouched. -/
def replaceCell (d : List (String × String)) (c : Cell) : Cell :=
  match c with
  | none => none
  | some s =>
    match alookup d s with
    | some v => some v
    | none => some s

/-- Table for correction purposes: named columns of cells. -/
abbrev CTable := List (String × List Cell)

/-- Correction map: per column, a dict from observed old value to replacement
value. -/
abbrev CorrectionMap := List (String × List (String × String))

/-- Embedding of apply_corrections: every column named in the correction map
has its cells replaced through the column dict; the correction maps produced
by validation only name existing columns, which this model assumes. -/
def apply_corrections (t : CTable) (corrections : CorrectionMap) : CTable :=
  t.map (fun col =>
    match alookup corrections col.1 with
    | none => col
    | some d => (col.1, col.2.map (replaceCell d)))

/-
Embedding of split_data_by_schema of remap_helper.py.
-/

/-- Mapping-key resolution of split_data_by_schema: the bare property name is
tried first, then the dotted entity.property form. -/
def resolveSource (sheet_name prop : String) (column_mapping : List (String × String)) :
    Option String :=
  match alookup column_mapping prop with
  | some src => some src
  | none => alookup column_mapping (sheet_name ++ "." ++ prop)

/-- Resolved (target property, source column) pairs of one entity, in declared
property order: a property is kept when its mapping resolves to a truthy
(non-empty) source column that exists in the source frame. -/
def resolvedPairs (sheet_name : String) (properties : List PropEntry)
    (column_mapping : List (String × String)) (df : DF) : List (String × String) :=
  properties.filterMap (fun p =>
    match resolveSource sheet_name p.Property column_mapping with
    | some src => if src ≠ "" ∧ src ∈ df.header then some (p.Property, src) else none
    | none => none)

/-- Sub-frame of one entity before deduplication: one renamed column per
resolved pair, rows projected from the source frame. -/
def projRows (pairs : List (String × String)) (df : DF) : List (List Cell) :=
  df.rows.map (fun row => pairs.map (fun pr => row.getD (colIdx df.header pr.2) none))

/-- Sub-frame of one entity: renamed columns in declared order, rows
deduplicated first-occurrence as by drop_duplicates. -/
def projTable (pairs : List (String × String)) (df : DF) : DF :=
  { header := pairs.map Prod.fst, rows := dedupFirst (projRows pairs df) }

/-- Embedding of split_data_by_schema of remap_helper.py: for each schema
entity in order, the mapped and present columns are collected and renamed; the
entity is emitted only when the built sub-frame is non-empty (at least one
column and at least one row, the pandas empty test), after dropping duplicate
rows. -/
def split_data_by_schema (df : DF) (column_mapping : List (String × String))
    (schema : Schema) : List (String × DF) :=
  schema.filterMap (fun n =>
    let pairs := resolvedPairs n.1 n.2 column_mapping df
    if pairs ≠ [] ∧ df.rows ≠ [] then some (n.1, projTable pairs df) else none)

/-
Embedding of write_metadata_tsv of remap_helper.py.  The destination
directory is modelled as a store from file path to written tabular content;
to_csv replaces the content at an existing path.
-/

/-- Record: one entity instance as a mapping from property name to value, in
insertion order. -/
abbrev Record := List (String × String)

/-- File store write with last-write-wins overwrite semantics: the binding of
an existing path is replaced in place, a new path is appended. -/
def storeWrite : List (String × DF) → String → DF → List (String × DF)
  | [], p, c => [(p, c)]
  | e :: rest, p, c => if e.1 = p then (p, c) :: rest else e :: storeWrite rest p c

/-- Embedding of write_metadata_tsv of remap_helper.py: with no declared
properties for the entity (absent entity and empty declaration coincide in
the dict-of-lists schema) nothing is written and none is returned; otherwise
the records are laid out with exactly one column per declared property in
declared order, a property absent from a record written as an empty cell, and
the frame is written to entity-lowercased dot tsv under the destination,
overwriting any prior content at that path. -/
def write_metadata_tsv (entity_name : String) (data : List Record) (schema : Schema)
    (output_dir : String) (store : List (String × DF)) :
    Option String × List (String × DF) :=
  let properties := (alookupD schema entity_name []).map (fun p => p.Property)
  if properties = [] then (none, store)
  else
    let filepath := output_dir ++ "/" ++ pyLower entity_name ++ ".tsv"
    let content : DF :=
      { header := properties
      , rows := data.map (fun rec => properties.map (fun p => alookup rec p)) }
    (some filepath, storeWrite store filepath content)

/-
Relationship linkage checker.
-/

/-- One missing linkage, as reported by the checker. -/
structure MissingLink where
  entity : String
  target_entity : String
  property : String
deriving DecidableEq

/-- Modelled from the spec: check_missing_links is imported by
tcia-remapper.py and exercised by test_relationships.py, but its definition is
absent from the sources.  Following section 4.5 of the spec and the use
sites: for every relationship end whose source entity appears in the split
tables, the injected linkage property of section 4.1 (the property of the
source entity schema whose name starts with the destination entity lowercased
followed by a dot) is looked up, and a MissingLink with the source entity, the
destination entity and that property is emitted when the property is not a
column of the source entity table.  Resolution of destination entities
through a non-tabular channel is handled by the caller, which filters the
returned list (tcia-remapper.py line 1167). -/
def check_missing_links (tables : List (String × DF)) (schema : Schema)
    (relationships : List (String × RelInfo)) : List MissingLink :=
  relationships.flatMap (fun rel =>
    rel.2.Ends.flatMap (fun e =>
      match alookup tables e.Src with
      | none => []
      | some t =>
        match (alookupD schema e.Src []).find?
            (fun p => pyStartsWith p.Property (pyLower e.Dst ++ ".")) with
        | none => []
        | some p =>
          if p.Property ∈ t.header then []
          else [{ entity := e.Src, target_entity := e.Dst, property := p.Property }]))

/-
Helper lemmas about the dict and frame primitives.
-/

theorem alookup_mem {α : Type} {d : List (String × α)} {k : String} {v : α}
    (h : alookup d k = some v) : (k, v) ∈ d := by
  induction d with
  | nil => simp [alookup] at h
  | cons e rest ih =>
    by_cases he : e.1 = k
    · have : e = (k, v) := by
        cases e with
        | mk k0 v0 =>
          simp only [alookup, he, if_pos] at h
          simp_all
      simp [this]
    · cases e with
      | mk k0 v0 =>
        simp only [alookup, he, if_neg, if_false] at h
        exact List.mem_cons_of_mem _ (ih h)

theorem alookup_aupsert_self {α : Type} (d : List (String × α)) (k : String) (v : α) :
    alookup (aupsert d k v) k = some v := by
  induction d with
  | nil => simp [aupsert, alookup]
  | cons e rest ih =>
    by_cases he : e.1 = k
    · cases e; simp_all [aupsert, alookup]
    · cases e; simp_all [aupsert, alookup]

theorem alookup_aupsert_other {α : Type} (d : List (String × α)) (k k0 : String) (v : α)
    (h : k ≠ k0) : alookup (aupsert d k v) k0 = alookup d k0 := by
  induction d with
  | nil => simp [aupsert, alookup, h]
  | cons e rest ih =>
    by_cases he : e.1 = k
    · cases e; simp_all [aupsert, alookup]
    · cases e; simp_all [aupsert, alookup]

theorem mem_dedupFirstAux {α : Type} [DecidableEq α] (seen : List α) (l : List α) (x : α) :
    x ∈ dedupFirstAux seen l ↔ x ∈ l ∧ x ∉ seen := by
  induction l generalizing seen with
  | nil => simp [dedupFirstAux]
  | cons a t ih =>
    by_cases ha : a ∈ seen
    · rw [dedupFirstAux, if_pos ha, ih]
      constructor
      · rintro ⟨hx, hs⟩; exact ⟨List.mem_cons_of_mem _ hx, hs⟩
      · rintro ⟨hx, hs⟩
        rcases List.mem_cons.mp hx with rfl | hx
        · exact absurd ha hs
        · exact ⟨hx, hs⟩
    · rw [dedupFirstAux, if_neg ha]
      constructor
      · intro hx
        rcases List.mem_cons.mp hx with rfl | hx
        · exact ⟨List.mem_cons_self _ _, ha⟩
        · rw [ih] at hx
          refine ⟨List.mem_cons_of_mem _ hx.1, ?_⟩
          intro hs
          exact hx.2 (List.mem_cons_of_mem _ hs)
      · rintro ⟨hx, hs⟩
        rcases List.mem_cons.mp hx with rfl | hx
        · exact List.mem_cons_self _ _
        · by_cases hxa : x = a
          · subst hxa; exact List.mem_cons_self _ _
          · refine List.mem_cons_of_mem _ ?_
            rw [ih]
            refine ⟨hx, ?_⟩
            intro hsx
            rcases List.mem_cons.mp hsx with h1 | h1
            · exact hxa h1
            · exact hs h1

theorem mem_dedupFirst {α : Type} [DecidableEq α] (l : List α) (x : α) :
    x ∈ dedupFirst l ↔ x ∈ l := by
  rw [dedupFirst, mem_dedupFirstAux]
  simp

theorem nodup_dedupFirstAux {α : Type} [DecidableEq α] (seen : List α) (l : List α) :
    (dedupFirstAux seen l).Nodup := by
  induction l generalizing seen with
  | nil => simp [dedupFirstAux]
  | cons a t ih =>
    by_cases ha : a ∈ seen
    · rw [dedupFirstAux, if_pos ha]; exact ih seen
    · rw [dedupFirstAux, if_neg ha]
      refine List.Nodup.cons ?_ (ih (a :: seen))
      intro hmem
      rw [mem_dedupFirstAux] at hmem
      exact hmem.2 (List.mem_cons_self _ _)

theorem nodup_dedupFirst {α : Type} [DecidableEq α] (l : List α) : (dedupFirst l).Nodup :=
  nodup_dedupFirstAux [] l

theorem keyNodupEq {α : Type} {l : List (String × α)} {k : String} {a b : α}
    (hnodup : (l.map Prod.fst).Nodup) (ha : (k, a) ∈ l) (hb : (k, b) ∈ l) : a = b := by
  have := List.inj_on_of_nodup_map hnodup ha hb rfl
  exact congrArg Prod.snd this

theorem alookup_storeWrite_self (store : List (String × DF)) (p : String) (c : DF) :
    alookup (storeWrite store p c) p = some c := by
  induction store with
  | nil => simp [storeWrite, alookup]
  | cons e rest ih =>
    by_cases he : e.1 = p
    · rw [storeWrite, if_pos he]; simp [alookup]
    · rw [storeWrite, if_neg he]
      cases e with
      | mk k0 v0 => simp only [alookup]; rw [if_neg he]; exact ih

theorem storeWrite_storeWrite (store : List (String × DF)) (p : String) (c1 c2 : DF) :
    storeWrite (storeWrite store p c1) p c2 = storeWrite store p c2 := by
  induction store with
  | nil => simp [storeWrite]
  | cons e rest ih =>
    by_cases he : e.1 = p
    · rw [storeWrite, if_pos he, storeWrite, storeWrite, if_pos rfl, if_pos he]
    · rw [storeWrite, if_neg he, storeWrite, if_neg he, storeWrite, if_neg he, ih]

/-
Helper lemmas about transform_mdf_to_schema.
-/

theorem mem_foldl_grow {α β : Type} (f : List α → β → List α)
    (hf : ∀ acc b, ∀ x ∈ acc, x ∈ f acc b) :
    ∀ (l : List β) (acc : List α) (x : α), x ∈ acc → x ∈ List.foldl f acc l := by
  intro l
  induction l with
  | nil => intro acc x hx; simpa using hx
  | cons b t ih =>
    intro acc x hx
    exact ih (f acc b) x (hf acc b x hx)

theorem mem_injectLinkages (relationships : List (String × RelInfo))
    (nkeys : List (String × String)) (node_name : String) (props0 : List PropEntry)
    (x : PropEntry) (hx : x ∈ props0) :
    x ∈ injectLinkages relationships nkeys node_name props0 := by
  unfold injectLinkages
  refine mem_foldl_grow _ ?_ relationships props0 x hx
  intro acc rel y hy
  refine mem_foldl_grow _ ?_ rel.2.Ends acc y hy
  intro acc2 e z hz
  dsimp only
  split
  · split
    · split
      · exact hz
      · exact List.mem_append.mpr (Or.inl hz)
    · exact hz
  · exact hz

theorem transform_foldl_pres (model : MdfModel) (prop_definitions : List (String × PropDef))
    (terms : List (String × TermDef)) (nodes : List (String × List String))
    (acc : Schema × List (String × List PermissibleValue)) (nm : String)
    (hnm : nm ∉ nodes.map Prod.fst) :
    alookup (nodes.foldl (transformStep model prop_definitions terms) acc).1 nm
      = alookup acc.1 nm := by
  induction nodes generalizing acc with
  | nil => rfl
  | cons n t ih =>
    have hne : n.1 ≠ nm := by
      intro h
      exact hnm (by simp [h])
    have ht : nm ∉ t.map Prod.fst := by
      intro h
      exact hnm (List.mem_cons_of_mem _ h)
    rw [List.foldl_cons, ih _ ht]
    exact alookup_aupsert_other _ _ _ _ hne

theorem transform_schema_lookup (model : MdfModel) (prop_definitions : List (String × PropDef))
    (terms : List (String × TermDef)) (node_name : String) (props : List String)
    (hmem : (node_name, props) ∈ model.Nodes)
    (hnodup : (model.Nodes.map Prod.fst).Nodup) :
    alookup (transform_mdf_to_schema model prop_definitions terms).1 node_name
      = some (nodeProps model prop_definitions node_name props) := by
  unfold transform_mdf_to_schema
  simp only
  suffices h : ∀ (nodes : List (String × List String))
      (acc : Schema × List (String × List PermissibleValue)),
      (node_name, props) ∈ nodes → (nodes.map Prod.fst).Nodup →
      alookup (nodes.foldl (transformStep model prop_definitions terms) acc).1 node_name
        = some (nodeProps model prop_definitions node_name props) by
    exact h model.Nodes ([], []) hmem hnodup
  intro nodes
  induction nodes with
  | nil => intro acc h; simp at h
  | cons n t ih =>
    intro acc hmem2 hnodup2
    rcases List.mem_cons.mp hmem2 with heq | htail
    · have hn1 : n.1 = node_name := by rw [← heq]
      have hnt : node_name ∉ t.map Prod.fst := by
        have := (List.nodup_cons.mp hnodup2).1
        rwa [hn1] at this
      rw [List.foldl_cons, transform_foldl_pres _ _ _ _ _ _ hnt]
      have hn2 : n.2 = props := by rw [← heq]
      rw [transformStep, ← hn1, ← hn2]
      exact alookup_aupsert_self _ _ _
    · exact ih _ htail (List.nodup_cons.mp hnodup2).2

/-
Claim C1.
-/

/-- Model document with a node referencing a property that has no definition
in the (empty) PropDefinitions document. -/
def modelMissingDef : MdfModel :=
  { Nodes := [("Node1", ["prop1"])], Relationships := [] }

/-- C1 counterexample: schema loading does not fail when a referenced property
name has no corresponding definition.  On a model whose only node references
prop1 while PropDefinitions is empty, transform_mdf_to_schema raises nothing
and returns a full schema in which the undefined property appears with empty
description and optional requiredness, contradicting the claim that loading
fails with a SchemaLoadError and that no partial or degraded schema is
returned; no error path exists in the source at all. -/
theorem transform_mdf_missing_definition_counterexample :
    transform_mdf_to_schema modelMissingDef [] []
      = ([("Node1", [{ Property := "prop1", Description := none, required_optional := "O" }])],
         [], []) := by
  rfl

/-- C1 (amended): for every schema-model input in which some node references a
property name that has no corresponding property definition, schema loading
does not fail: transform_mdf_to_schema is total, and the returned schema
contains the referencing node with the undefined property defaulted to an
empty description and optional requiredness. -/
theorem transform_mdf_missing_definition_defaults (model : MdfModel)
    (prop_definitions : List (String × PropDef)) (terms : List (String × TermDef))
    (node_name : String) (props : List String) (prop_name : String)
    (hmem : (node_name, props) ∈ model.Nodes)
    (hnodup : (model.Nodes.map Prod.fst).Nodup)
    (hprop : prop_name ∈ props)
    (hmissing : alookup prop_definitions prop_name = none) :
    ∃ entries,
      alookup (transform_mdf_to_schema model prop_definitions terms).1 node_name = some entries
      ∧ { Property := prop_name, Description := none, required_optional := "O" } ∈ entries := by
  refine ⟨nodeProps model prop_definitions node_name props,
    transform_schema_lookup model prop_definitions terms node_name props hmem hnodup, ?_⟩
  unfold nodeProps
  apply mem_injectLinkages
  have h : mkPropEntry prop_name (alookup prop_definitions prop_name)
      = { Property := prop_name, Description := none, required_optional := "O" } := by
    rw [hmissing]; rfl
  rw [← h]
  exact List.mem_map_of_mem _ hprop

/-- Witness for C1: the amended theorem applied to the concrete model with an
undefined referenced property. -/
theorem transform_mdf_missing_definition_defaults_witness :
    (("Node1", ["prop1"]) ∈ modelMissingDef.Nodes
      ∧ (modelMissingDef.Nodes.map Prod.fst).Nodup
      ∧ "prop1" ∈ ["prop1"]
      ∧ alookup ([] : List (String × PropDef)) "prop1" = none)
    ∧ ∃ entries,
        alookup (transform_mdf_to_schema modelMissingDef [] []).1 "Node1" = some entries
        ∧ { Property := "prop1", Description := none, required_optional := "O" } ∈ entries :=
  ⟨⟨by decide, by decide, by decide, by decide⟩,
   transform_mdf_missing_definition_defaults modelMissingDef [] [] "Node1" ["prop1"] "prop1"
     (by decide) (by decide) (by decide) (by decide)⟩

/-
Claim C2.
-/

/-- Model document with Subject and Dataset nodes and a relationship from
Subject to Dataset. -/
def mdfModelSubjectDataset : MdfModel :=
  { Nodes := [("Subject", ["subject_id"]), ("Dataset", ["dataset_id"])]
  , Relationships := [("of_Subject", { Ends := [{ Src := "Subject", Dst := "Dataset" }] })] }

/-- Property definitions marking dataset_id as the Dataset primary key. -/
def propDefsSubjectDataset : List (String × PropDef) :=
  [ ("subject_id", { Key := none, Req := some (.s "Yes")
                   , Desc := some "Subject identifier", Enum := none })
  , ("dataset_id", { Key := some (.s "Yes"), Req := some (.s "Yes")
                   , Desc := some "Dataset identifier", Enum := none }) ]

/-- Split-data map holding only a Subject table without the dataset.dataset_id
column. -/
def subjectOnlyTables : List (String × DF) :=
  [("Subject", { header := ["subject_id"], rows := [[some "S1"]] })]

/-- C2: on the schema transformed from a model with relationship Subject to
Dataset whose destination primary key is dataset_id (so the linkage property
dataset.dataset_id is injected into Subject), a split-data map containing a
Subject table without a dataset.dataset_id column yields exactly one
MissingLink naming Subject, Dataset and dataset.dataset_id. -/
theorem check_missing_links_subject_dataset :
    check_missing_links subjectOnlyTables
      (transform_mdf_to_schema mdfModelSubjectDataset propDefsSubjectDataset []).1
      (transform_mdf_to_schema mdfModelSubjectDataset propDefsSubjectDataset []).2.2
      = [{ entity := "Subject", target_entity := "Dataset", property := "dataset.dataset_id" }] := by
  decide

/-
Order lemmas about the code-point string comparison.
-/

theorem char_toNat_inj {x y : Char} (h : x.toNat = y.toNat) : x = y := by
  apply Char.ext
  exact UInt32.toNat.inj h

theorem strLtChars_asymm : ∀ {a b : List Char},
    strLtChars a b = true → strLtChars b a = false
  | [], [] => by intro h; simp [strLtChars] at h
  | [], _ :: _ => by intro _; rfl
  | _ :: _, [] => by intro h; simp [strLtChars] at h
  | x :: xs, y :: ys => by
    intro h
    by_cases h1 : x.toNat < y.toNat
    · have h2 : ¬ y.toNat < x.toNat := by omega
      simp [strLtChars, h1, h2]
    · by_cases h2 : y.toNat < x.toNat
      · simp [strLtChars, h1, h2] at h
      · simp only [strLtChars, h1, h2, if_false] at h
        simp only [strLtChars, h1, h2, if_false]
        exact strLtChars_asymm h

theorem strLtChars_trichot : ∀ {a b : List Char},
    strLtChars a b = false → strLtChars b a = false → a = b
  | [], [] => by intro _ _; rfl
  | [], _ :: _ => by intro h _; simp [strLtChars] at h
  | _ :: _, [] => by intro _ h; simp [strLtChars] at h
  | x :: xs, y :: ys => by
    intro h1 h2
    by_cases hx : x.toNat < y.toNat
    · simp [strLtChars, hx] at h1
    · by_cases hy : y.toNat < x.toNat
      · simp [strLtChars, hy] at h2
      · have hxy : x = y := char_toNat_inj (by omega)
        simp only [strLtChars, hx, hy, if_false] at h1
        simp only [strLtChars, hy, hx, if_false] at h2
        rw [hxy, strLtChars_trichot h1 h2]

theorem strLtChars_trans : ∀ {a b c : List Char},
    strLtChars a b = true → strLtChars b c = true → strLtChars a c = true
  | [], [], _ => by intro h _; simp [strLtChars] at h
  | _ :: _, [], _ => by intro h _; simp [strLtChars] at h
  | [], _ :: _, [] => by intro _ h; simp [strLtChars] at h
  | [], _ :: _, _ :: _ => by intro _ _; rfl
  | _ :: _, _ :: _, [] => by intro _ h; simp [strLtChars] at h
  | x :: xs, y :: ys, z :: zs => by
    intro h1 h2
    by_cases hxy : x.toNat < y.toNat
    · by_cases hyz : y.toNat < z.toNat
      · have : x.toNat < z.toNat := by omega
        simp [strLtChars, this]
      · by_cases hzy : z.toNat < y.toNat
        · simp [strLtChars, hyz, hzy] at h2
        · have : x.toNat < z.toNat := by omega
          simp [strLtChars, this]
    · by_cases hyx : y.toNat < x.toNat
      · simp [strLtChars, hxy, hyx] at h1
      · by_cases hyz : y.toNat < z.toNat
        · have : x.toNat < z.toNat := by omega
          simp [strLtChars, this]
        · by_cases hzy : z.toNat < y.toNat
          · simp [strLtChars, hyz, hzy] at h2
          · have hxz : ¬ x.toNat < z.toNat := by omega
            have hzx : ¬ z.toNat < x.toNat := by omega
            simp only [strLtChars, hxy, hyx, if_false] at h1
            simp only [strLtChars, hyz, hzy, if_false] at h2
            simp only [strLtChars, hxz, hzx, if_false]
            exact strLtChars_trans h1 h2

instance : IsTotal String pyStrLe := by
  constructor
  intro a b
  cases h : strLtChars b.data a.data with
  | false => exact Or.inl h
  | true => exact Or.inr (strLtChars_asymm h)

instance : IsTrans String pyStrLe := by
  constructor
  intro a b c hab hbc
  unfold pyStrLe at *
  cases hca : strLtChars c.data a.data with
  | false => rfl
  | true =>
    exfalso
    by_cases hbcs : strLtChars b.data c.data = true
    · have : strLtChars b.data a.data = true := strLtChars_trans hbcs hca
      rw [hab] at this
      exact Bool.false_ne_true this
    · have hbc2 : strLtChars b.data c.data = false := by
        cases h : strLtChars b.data c.data
        · rfl
        · exact absurd h hbcs
      have heq : c.data = b.data := strLtChars_trichot hbc hbc2
      have : strLtChars c.data a.data = false := by rw [heq]; exact hab
      rw [hca] at this
      exact absurd this (by decide)

/-
Claim C3.
-/

/-- Source frame whose race column holds a casing variant of the vocabulary
value White. -/
def dfCaseVariant : DF := { header := ["race"], rows := [[some "white"]] }

/-- Schema declaring the race property for Subject. -/
def schemaRaceOnly : Schema :=
  [("Subject", [{ Property := "race", Description := none, required_optional := "O" }])]

/-- Vocabulary map for the race column. -/
def pvRaceOnly : List (String × List String) := [("race", ["White"])]

/-- C3 counterexample: validate_dataframe does not classify by case-insensitive
match.  The cell white, a casing variant of the vocabulary value White, is
collected as invalid and reported with a suggested correction, because the
source tests literal membership of the cell in the valid set; under the
claimed case-insensitive validity the report and correction map would both be
empty. -/
theorem validate_dataframe_case_sensitive_counterexample :
    (validate_dataframe dfCaseVariant "Subject" schemaRaceOnly pvRaceOnly).2
      = [("race", [("white", "White")])]
    ∧ (validate_dataframe dfCaseVariant "Subject" schemaRaceOnly pvRaceOnly).1.length = 1 := by
  set_option maxRecDepth 4000 in decide

/-- C3 (amended): cell validation is case-insensitive in the clinical-validator
entry points: for every vocabulary value v and casing variant vv of v,
get_correct_value finds a match, the is_valid check of
validate_categorical_column accepts the cell, and any value returned is a
vocabulary member with the same lowercasing; validate_dataframe however
classifies by case-sensitive literal membership, so a casing variant that
differs from the canonical string is reported as invalid there, as the
counterexample shows. -/
theorem get_correct_value_case_insensitive (valid_values : List String) (v vv : String)
    (column : String) (hv : v ∈ valid_values) (hcase : pyLower vv = pyLower v)
    (hcol : column ≠ "Race") :
    (get_correct_value vv valid_values).isSome = true
    ∧ validate_categorical_is_valid column valid_values (some vv) = true
    ∧ ∀ w, get_correct_value vv valid_values = some w →
        w ∈ valid_values ∧ pyLower w = pyLower vv := by
  have hsome : (get_correct_value vv valid_values).isSome = true := by
    apply List.find?_isSome.mpr
    refine ⟨v, List.mem_reverse.mpr hv, ?_⟩
    rw [hcase]
    exact beq_self_eq_true _
  refine ⟨hsome, ?_, ?_⟩
  · simp only [validate_categorical_is_valid]
    rw [if_neg hcol]
    exact hsome
  · intro w hw
    constructor
    · exact List.mem_reverse.mp (List.mem_of_find?_eq_some hw)
    · have := List.find?_some hw
      exact eq_of_beq this

/-- Witness for C3: the amended theorem applied to the Race vocabulary, its
value White and the casing variant WHITE in the Ethnicity column. -/
theorem get_correct_value_case_insensitive_witness :
    ("White" ∈ permissible_race ∧ pyLower "WHITE" = pyLower "White" ∧ "Ethnicity" ≠ "Race")
    ∧ ((get_correct_value "WHITE" permissible_race).isSome = true
       ∧ validate_categorical_is_valid "Ethnicity" permissible_race (some "WHITE") = true
       ∧ ∀ w, get_correct_value "WHITE" permissible_race = some w →
           w ∈ permissible_race ∧ pyLower w = pyLower "WHITE") :=
  ⟨⟨by decide, by decide, by decide⟩,
   get_correct_value_case_insensitive permissible_race "White" "WHITE" "Ethnicity"
     (by decide) (by decide) (by decide)⟩

/-
Claim C4.
-/

/-- Table with a single column c holding the value a. -/
def chainTable : CTable := [("c", [some "a"])]

/-- Correction map whose replacement value b is itself a key. -/
def chainMap : CorrectionMap := [("c", [("a", "b"), ("b", "c")])]

/-- C4 counterexample: correction application is not idempotent for every
table and correction map.  With the dict mapping a to b and b to c, the first
application turns the cell a into b and the second turns that b into c, so
applying twice differs from applying once. -/
theorem apply_corrections_not_idempotent :
    apply_corrections (apply_corrections chainTable chainMap) chainMap
      ≠ apply_corrections chainTable chainMap := by
  decide

theorem replaceCell_idem (d : List (String × String))
    (h : ∀ p ∈ d, alookup d p.2 = none) (c : Cell) :
    replaceCell d (replaceCell d c) = replaceCell d c := by
  cases c with
  | none => rfl
  | some s =>
    cases h1 : alookup d s with
    | none => simp [replaceCell, h1]
    | some v =>
      have hv : alookup d v = none := h (s, v) (alookup_mem h1)
      simp [replaceCell, h1, hv]

/-- C4 (amended): correction application is idempotent for every table and
every correction map in which no replacement value is itself an observed old
value of the same column dict (the shape validation produces: keys are
invalid values, replacements are vocabulary values, and the two sets are
disjoint); without that restriction a chained pair defeats idempotence, as
the counterexample shows. -/
theorem apply_corrections_idempotent (t : CTable) (corrections : CorrectionMap)
    (h : ∀ d ∈ corrections.map Prod.snd, ∀ p ∈ d, alookup d p.2 = none) :
    apply_corrections (apply_corrections t corrections) corrections
      = apply_corrections t corrections := by
  unfold apply_corrections
  rw [List.map_map]
  apply List.map_congr_left
  intro col _
  simp only [Function.comp]
  cases h1 : alookup corrections col.1 with
  | none => simp [h1]
  | some d =>
    simp only [h1, List.map_map]
    have hd : ∀ p ∈ d, alookup d p.2 = none :=
      h d (List.mem_map.mpr ⟨(col.1, d), alookup_mem h1, rfl⟩)
    congr 1
    apply List.map_congr_left
    intro c _
    exact replaceCell_idem d hd c

/-- Witness for C4: the amended theorem applied to a validation-shaped
correction map, whose replacement White is not among the keys. -/
theorem apply_corrections_idempotent_witness :
    (∀ d ∈ ([("Race", [("wite", "White")])] : CorrectionMap).map Prod.snd,
       ∀ p ∈ d, alookup d p.2 = none)
    ∧ apply_corrections
        (apply_corrections [("Race", [some "wite", some "White"])]
          [("Race", [("wite", "White")])])
        [("Race", [("wite", "White")])]
      = apply_corrections [("Race", [some "wite", some "White"])]
          [("Race", [("wite", "White")])] :=
  ⟨by decide,
   apply_corrections_idempotent [("Race", [some "wite", some "White"])]
     [("Race", [("wite", "White")])] (by decide)⟩

/-
Claim C5.
-/

/-- C5 counterexample: is_valid of validate_categorical_column does not treat
every absent-like candidate as valid.  An empty string cell and a
whitespace-only cell are classified invalid against the Ethnicity vocabulary
(only a pandas missing value is unconditionally valid), so vocabulary
validation does report some empty values as standardization errors. -/
theorem validate_categorical_empty_counterexample :
    validate_categorical_is_valid "Ethnicity" permissible_ethnicity (some "") = false
    ∧ validate_categorical_is_valid "Ethnicity" permissible_ethnicity (some " ") = false
    ∧ validate_categorical_is_valid "Ethnicity" permissible_ethnicity none = true := by
  decide

/-- C5 (amended): validate_dataframe never reports a null, empty or
whitespace-only cell, for every vocabulary (such cells are skipped before the
membership test); the is_valid check of validate_categorical_column treats
only a null cell as unconditionally valid, and classifies an empty or
whitespace-only string cell as invalid whenever the vocabulary contains no
value with the same lowercasing, as the counterexample exhibits. -/
theorem absent_values_never_flagged (valid_set : List String) (cells : List Cell)
    (s : String) (hs : pyStrip s = "") :
    s ∉ invalidValsOf valid_set cells
    ∧ (∀ column vocab, validate_categorical_is_valid column vocab none = true)
    ∧ (∀ column vocab, column ≠ "Race" → (∀ u ∈ vocab, pyLower u ≠ pyLower s) →
        validate_categorical_is_valid column vocab (some s) = false) := by
  refine ⟨?_, ?_, ?_⟩
  · intro hmem
    unfold invalidValsOf at hmem
    rcases List.mem_filterMap.mp hmem with ⟨c, _, hc⟩
    cases c with
    | none => simp at hc
    | some t =>
      by_cases ht : pyStrip t = ""
      · simp [ht] at hc
      · by_cases htv : t ∈ valid_set
        · simp [ht, htv] at hc
        · simp [ht, htv] at hc
          subst hc
          exact ht hs
  · intro column vocab
    rfl
  · intro column vocab hcol hnone
    simp only [validate_categorical_is_valid]
    rw [if_neg hcol]
    have : get_correct_value s vocab = none := by
      apply List.find?_eq_none.mpr
      intro u hu
      intro hbeq
      exact hnone u (List.mem_reverse.mp hu) (eq_of_beq hbeq)
    rw [this]
    rfl

/-- Witness for C5: the amended theorem applied to a whitespace-only cell
value against the Race vocabulary. -/
theorem absent_values_never_flagged_witness :
    (pyStrip " " = "")
    ∧ (" " ∉ invalidValsOf permissible_race [some " ", none, some "White"]
       ∧ (∀ column vocab, validate_categorical_is_valid column vocab none = true)
       ∧ (∀ column vocab, column ≠ "Race" → (∀ u ∈ vocab, pyLower u ≠ pyLower " ") →
           validate_categorical_is_valid column vocab (some " ") = false)) :=
  ⟨by decide,
   absent_values_never_flagged permissible_race [some " ", none, some "White"] " " (by decide)⟩

/-
Claim C9.
-/

/-- C9: for every non-null Race cell, the cleaned cell of fix_race_values is
the semicolon join of a list that is sorted in code-point order, free of
duplicates, and whose members are exactly the case-corrected stripped tokens
of the original cell: token order is alphabetized and token multiplicity is
collapsed, even when every token was already a valid permissible value. -/
theorem fix_race_values_sorted_set (s : String) :
    ∃ L, fix_race_values (some s) = some (joinSemi L)
      ∧ List.Sorted pyStrLe L
      ∧ L.Nodup
      ∧ ∀ x, x ∈ L ↔ ∃ t ∈ pySplitSemi s, fixRaceToken t = x := by
  refine ⟨sortedDedup ((pySplitSemi s).map fixRaceToken), rfl, ?_, ?_, ?_⟩
  · exact List.sorted_insertionSort pyStrLe _
  · rw [sortedDedup, (List.perm_insertionSort pyStrLe _).nodup_iff]
    exact nodup_dedupFirst _
  · intro x
    rw [sortedDedup, List.mem_insertionSort, mem_dedupFirst, List.mem_map]

/-
Claim C7.
-/

/-- C7: write_metadata_tsv returns none and leaves the store untouched when
the entity has no declared properties (an absent entity and an empty
declaration coincide in the dict-of-lists schema); otherwise it returns the
path entity-lowercased dot tsv under the destination and the store then binds
that path to a frame with exactly one column per declared property in
declared order, each record row listing the record value of each property in
that order with absent properties empty; rows depend only on the record
lookup function, not on record key order; and re-running the writer for the
same entity overwrites the prior file, leaving the store as if only the last
run had happened. -/
theorem write_metadata_tsv_spec (entity_name : String) (data : List Record) (schema : Schema)
    (output_dir : String) (store : List (String × DF)) :
    ((alookupD schema entity_name []).map (fun p => p.Property) = [] →
       write_metadata_tsv entity_name data schema output_dir store = (none, store))
    ∧ ((alookupD schema entity_name []).map (fun p => p.Property) ≠ [] →
       (write_metadata_tsv entity_name data schema output_dir store).1
           = some (output_dir ++ "/" ++ pyLower entity_name ++ ".tsv")
       ∧ alookup (write_metadata_tsv entity_name data schema output_dir store).2
           (output_dir ++ "/" ++ pyLower entity_name ++ ".tsv")
           = some { header := (alookupD schema entity_name []).map (fun p => p.Property)
                  , rows := data.map (fun rec =>
                      ((alookupD schema entity_name []).map (fun p => p.Property)).map
                        (fun q => alookup rec q)) })
    ∧ (∀ rec1 rec2 : Record, (∀ q, alookup rec1 q = alookup rec2 q) →
        ((alookupD schema entity_name []).map (fun p => p.Property)).map
            (fun q => alookup rec1 q)
          = ((alookupD schema entity_name []).map (fun p => p.Property)).map
            (fun q => alookup rec2 q))
    ∧ (∀ data2 : List Record,
        (write_metadata_tsv entity_name data2 schema output_dir
            (write_metadata_tsv entity_name data schema output_dir store).2).2
          = (write_metadata_tsv entity_name data2 schema output_dir store).2) := by
  refine ⟨?_, ?_, ?_, ?_⟩
  · intro h
    simp only [write_metadata_tsv]
    rw [if_pos h]
  · intro h
    constructor
    · simp only [write_metadata_tsv]
      rw [if_neg h]
    · simp only [write_metadata_tsv]
      rw [if_neg h]
      exact alookup_storeWrite_self _ _ _
  · intro rec1 rec2 hq
    apply List.map_congr_left
    intro q _
    exact hq q
  · intro data2
    by_cases h : (alookupD schema entity_name []).map (fun p => p.Property) = []
    · simp only [write_metadata_tsv]
      rw [if_pos h, if_pos h, if_pos h]
    · simp only [write_metadata_tsv]
      rw [if_neg h, if_neg h, if_neg h]
      exact storeWrite_storeWrite _ _ _ _

/-- Schema declaring two Dataset properties, for the C7 witness. -/
def schemaDatasetW : Schema :=
  [("Dataset", [{ Property := "dataset_id", Description := none, required_optional := "R" }
              , { Property := "dataset_name", Description := none, required_optional := "O" }])]

/-- One record carrying only the second declared property, keys in an order
different from the schema order. -/
def dataDatasetW : List Record := [[("dataset_name", "DS")]]

/-- Witness for C7: writing the Dataset record produces output/dataset.tsv
with columns in schema order and the absent dataset_id empty. -/
theorem write_metadata_tsv_spec_witness :
    ((alookupD schemaDatasetW "Dataset" []).map (fun p => p.Property) ≠ [])
    ∧ ((write_metadata_tsv "Dataset" dataDatasetW schemaDatasetW "output" []).1
           = some ("output" ++ "/" ++ pyLower "Dataset" ++ ".tsv")
       ∧ alookup (write_metadata_tsv "Dataset" dataDatasetW schemaDatasetW "output" []).2
           ("output" ++ "/" ++ pyLower "Dataset" ++ ".tsv")
           = some { header := (alookupD schemaDatasetW "Dataset" []).map (fun p => p.Property)
                  , rows := dataDatasetW.map (fun rec =>
                      ((alookupD schemaDatasetW "Dataset" []).map (fun p => p.Property)).map
                        (fun q => alookup rec q)) }) :=
  ⟨by decide,
   (write_metadata_tsv_spec "Dataset" dataDatasetW schemaDatasetW "output" []).2.1 (by decide)⟩

/-
Helper lemmas about split_data_by_schema.
-/

theorem mem_resolvedPairs {e : String} {props : List PropEntry}
    {column_mapping : List (String × String)} {df : DF} {pr : String × String}
    (h : pr ∈ resolvedPairs e props column_mapping df) :
    ∃ q ∈ props, q.Property = pr.1
      ∧ resolveSource e q.Property column_mapping = some pr.2
      ∧ pr.2 ≠ "" ∧ pr.2 ∈ df.header := by
  rcases List.mem_filterMap.mp h with ⟨q, hq, hfq⟩
  cases hres : resolveSource e q.Property column_mapping with
  | none => simp [hres] at hfq
  | some src =>
    simp only [hres] at hfq
    by_cases hcond : src ≠ "" ∧ src ∈ df.header
    · rw [if_pos hcond] at hfq
      have hpr : (q.Property, src) = pr := Option.some.inj hfq
      refine ⟨q, hq, ?_, ?_, ?_, ?_⟩
      · rw [← hpr]
      · rw [← hpr]; exact hres
      · rw [← hpr]; exact hcond.1
      · rw [← hpr]; exact hcond.2
    · rw [if_neg hcond] at hfq
      simp at hfq

theorem mem_split_shape {df : DF} {column_mapping : List (String × String)} {schema : Schema}
    {e : String} {T : DF} (hT : (e, T) ∈ split_data_by_schema df column_mapping schema) :
    ∃ props2, (e, props2) ∈ schema
      ∧ T = projTable (resolvedPairs e props2 column_mapping df) df
      ∧ resolvedPairs e props2 column_mapping df ≠ [] ∧ df.rows ≠ [] := by
  rcases List.mem_filterMap.mp hT with ⟨n, hn, hfn⟩
  by_cases hcond : resolvedPairs n.1 n.2 column_mapping df ≠ [] ∧ df.rows ≠ []
  · rw [if_pos hcond] at hfn
    have hpair := Option.some.inj hfn
    have he : n.1 = e := congrArg Prod.fst hpair
    have hTeq : projTable (resolvedPairs n.1 n.2 column_mapping df) df = T :=
      congrArg Prod.snd hpair
    refine ⟨n.2, ?_, ?_, ?_, hcond.2⟩
    · rw [← he]; exact hn
    · rw [← hTeq, he]
    · rw [← he]; exact hcond.1
  · rw [if_neg hcond] at hfn
    simp at hfn

theorem not_mem_split_of_resolved_nil {df : DF} {column_mapping : List (String × String)}
    {schema : Schema} {e : String} {props : List PropEntry}
    (hmem : (e, props) ∈ schema) (hkeys : (schema.map Prod.fst).Nodup)
    (hempty : resolvedPairs e props column_mapping df = []) :
    ∀ T, (e, T) ∉ split_data_by_schema df column_mapping schema := by
  intro T hT
  rcases mem_split_shape hT with ⟨props2, hmem2, _, hne, _⟩
  have : props2 = props := keyNodupEq hkeys hmem2 hmem
  rw [this, hempty] at hne
  exact hne rfl

/-
Claim C8.
-/

/-- Schema with one entity and one property, for the C8 counterexample. -/
def schemaSplitE : Schema :=
  [("E", [{ Property := "p", Description := none, required_optional := "O" }])]

/-- C8 counterexample: split does not produce a table for every entity with at
least one mapped property.  Entity E has its property p mapped to the
existing source column A, yet on a source table with zero rows the built
sub-frame is empty by the pandas test and E is omitted from the result. -/
theorem split_data_empty_source_counterexample :
    split_data_by_schema { header := ["A"], rows := [] } [("p", "A")] schemaSplitE = [] := by
  decide

/-- C8 (amended): provided the source table has at least one row, split
produces one table per entity that has at least one mapped property whose
resolved source column exists in the source table: the table is listed in the
result, its columns are the resolved properties renamed to their target names
in declared order, its rows are duplicate-free, and they are exactly the
projected source rows, so two fully identical mapped rows yield exactly one;
an entity with no such resolvable mapped property (and any entity, when the
source has no rows, as the counterexample shows) is omitted. -/
theorem split_data_by_schema_spec (df : DF) (column_mapping : List (String × String))
    (schema : Schema) (e : String) (props : List PropEntry)
    (hmem : (e, props) ∈ schema)
    (hkeys : (schema.map Prod.fst).Nodup)
    (hrows : df.rows ≠ []) :
    (resolvedPairs e props column_mapping df ≠ [] →
       ((e, projTable (resolvedPairs e props column_mapping df) df)
           ∈ split_data_by_schema df column_mapping schema)
       ∧ (projTable (resolvedPairs e props column_mapping df) df).header
           = (resolvedPairs e props column_mapping df).map Prod.fst
       ∧ (projTable (resolvedPairs e props column_mapping df) df).rows.Nodup
       ∧ ∀ r, r ∈ (projTable (resolvedPairs e props column_mapping df) df).rows
           ↔ r ∈ projRows (resolvedPairs e props column_mapping df) df)
    ∧ (resolvedPairs e props column_mapping df = [] →
       ∀ T, (e, T) ∉ split_data_by_schema df column_mapping schema) := by
  constructor
  · intro hne
    refine ⟨?_, rfl, nodup_dedupFirst _, fun r => mem_dedupFirst _ r⟩
    apply List.mem_filterMap.mpr
    refine ⟨(e, props), hmem, ?_⟩
    simp only [split_data_by_schema]
    rw [if_pos ⟨hne, hrows⟩]
  · intro hempty
    exact not_mem_split_of_resolved_nil hmem hkeys hempty

/-- Source frame with two identical rows, for the C8 witness. -/
def dfTwoIdentical : DF :=
  { header := ["PatientID", "Age"]
  , rows := [[some "PT1", some "55"], [some "PT1", some "55"]] }

/-- Schema with the Subject entity, for the C8 and C10 witnesses. -/
def schemaSubjectW : Schema :=
  [("Subject", [{ Property := "subject_id", Description := none, required_optional := "R" }])]

/-- Declared Subject properties, for the C8 and C10 witnesses. -/
def propsSubjectW : List PropEntry :=
  [{ Property := "subject_id", Description := none, required_optional := "R" }]

/-- Dotted-form column mapping, for the C8 witness. -/
def mappingDottedW : List (String × String) := [("Subject.subject_id", "PatientID")]

/-- Resolved pairs of the C8 witness configuration. -/
def pairsW : List (String × String) :=
  resolvedPairs "Subject" propsSubjectW mappingDottedW dfTwoIdentical

/-- Witness for C8: the amended theorem applied to a dotted mapping and a
source with two identical rows; the resolved pairs are non-empty, so Subject
is produced with duplicate-free rows. -/
theorem split_data_by_schema_spec_witness :
    (("Subject", propsSubjectW) ∈ schemaSubjectW
     ∧ (schemaSubjectW.map Prod.fst).Nodup ∧ dfTwoIdentical.rows ≠ [])
    ∧ ((pairsW ≠ [] →
        (("Subject", projTable pairsW dfTwoIdentical)
            ∈ split_data_by_schema dfTwoIdentical mappingDottedW schemaSubjectW)
        ∧ (projTable pairsW dfTwoIdentical).header = pairsW.map Prod.fst
        ∧ (projTable pairsW dfTwoIdentical).rows.Nodup
        ∧ (∀ r, r ∈ (projTable pairsW dfTwoIdentical).rows
            ↔ r ∈ projRows pairsW dfTwoIdentical))
       ∧ (pairsW = [] →
          ∀ T, ("Subject", T) ∉ split_data_by_schema dfTwoIdentical mappingDottedW
              schemaSubjectW)) :=
  ⟨⟨by decide, by decide, by decide⟩,
   split_data_by_schema_spec dfTwoIdentical mappingDottedW schemaSubjectW
     "Subject" propsSubjectW (by decide) (by decide) (by decide)⟩

/-
Claim C10.
-/

/-- C10: a mapping entry whose source column does not exist in the source
table is silently ignored by split (the embedding is total, so no error can
be raised): the target property is absent from the columns of the entity
table in the result, and an entity all of whose mapped source columns are
missing from the source table is omitted from the result entirely. -/
theorem split_missing_source_ignored (df : DF) (column_mapping : List (String × String))
    (schema : Schema) (e : String) (props : List PropEntry) (p : PropEntry)
    (hmem : (e, props) ∈ schema)
    (hkeys : (schema.map Prod.fst).Nodup)
    (hp : p ∈ props)
    (hpn : (props.map PropEntry.Property).Nodup)
    (hsrc : ∀ src, resolveSource e p.Property column_mapping = some src → src ∉ df.header) :
    (∀ T, (e, T) ∈ split_data_by_schema df column_mapping schema → p.Property ∉ T.header)
    ∧ ((∀ q ∈ props, ∀ src, resolveSource e q.Property column_mapping = some src →
          src ∉ df.header) →
       ∀ T, (e, T) ∉ split_data_by_schema df column_mapping schema) := by
  constructor
  · intro T hT hhead
    rcases mem_split_shape hT with ⟨props2, hmem2, hTeq, _, _⟩
    have hprops : props2 = props := keyNodupEq hkeys hmem2 hmem
    subst hprops
    rw [hTeq] at hhead
    rcases List.mem_map.mp hhead with ⟨pr, hpr, hpr1⟩
    rcases mem_resolvedPairs hpr with ⟨q, hq, hqname, hqres, _, hqmem⟩
    have hqp : q = p := by
      apply List.inj_on_of_nodup_map hpn hq hp
      rw [hqname, hpr1]
    rw [hqp] at hqres
    exact hsrc pr.2 hqres hqmem
  · intro hall
    apply not_mem_split_of_resolved_nil hmem hkeys
    apply List.filterMap_eq_nil_iff.mpr
    intro q hq
    cases hres : resolveSource e q.Property column_mapping with
    | none => rfl
    | some src =>
      have hnot : src ∉ df.header := hall q hq src hres
      simp only [hres]
      rw [if_neg ?_]
      intro hcond
      exact hnot hcond.2

/-- Bare-form column mapping naming a source column the frame lacks, for the
C10 witness. -/
def mappingMissingW : List (String × String) := [("subject_id", "Missing")]

/-- The single Subject property entry, for the C10 witness. -/
def propSubjectIdW : PropEntry :=
  { Property := "subject_id", Description := none, required_optional := "R" }

/-- Witness for C10: the amended theorem applied to a mapping naming a source
column Missing that the source table lacks; Subject is dropped from the
result. -/
theorem split_missing_source_ignored_witness :
    (("Subject", propsSubjectW) ∈ schemaSubjectW
     ∧ (∀ src, resolveSource "Subject" propSubjectIdW.Property mappingMissingW = some src →
          src ∉ dfTwoIdentical.header))
    ∧ ((∀ T, ("Subject", T) ∈ split_data_by_schema dfTwoIdentical mappingMissingW
          schemaSubjectW → propSubjectIdW.Property ∉ T.header)
       ∧ ((∀ q ∈ propsSubjectW,
            ∀ src, resolveSource "Subject" q.Property mappingMissingW = some src →
              src ∉ dfTwoIdentical.header) →
          ∀ T, ("Subject", T) ∉ split_data_by_schema dfTwoIdentical mappingMissingW
              schemaSubjectW)) :=
  ⟨⟨by decide, by decide⟩,
   split_missing_source_ignored dfTwoIdentical mappingMissingW schemaSubjectW
     "Subject" propsSubjectW propSubjectIdW
     (by decide) (by decide) (by decide) (by decide) (by decide)⟩

/-
Order lemmas about the (score, string) tuple comparison of the matcher.
-/

/-- Tuple order in which nlargest picks its maximum: q is at most p when the
score of q is smaller, or the scores are equal (as exact rationals) and the
string of q is the same or lexicographically smaller. -/
def pairLe (q p : Score × String) : Prop :=
  qltB q.1 p.1 = true ∨ (qeqB q.1 p.1 = true ∧ (q.2 = p.2 ∨ pyStrLt q.2 p.2 = true))

theorem qltB_iff {p q : Score} : qltB p q = true ↔ p.1 * q.2 < q.1 * p.2 := by
  simp [qltB]

theorem qeqB_iff {p q : Score} : qeqB p q = true ↔ p.1 * q.2 = q.1 * p.2 := by
  simp [qeqB]

theorem pairLe_refl (p : Score × String) : pairLe p p :=
  Or.inr ⟨qeqB_iff.mpr rfl, Or.inl rfl⟩

theorem data_inj {a b : String} (h : a.data = b.data) : a = b :=
  congrArg String.mk h

theorem pairGt_false_le {c best : Score × String} (h : pairGt c best = false) :
    pairLe c best := by
  unfold pairGt at h
  rw [Bool.or_eq_false_iff, Bool.and_eq_false_iff] at h
  obtain ⟨hlt, hsec⟩ := h
  have hle : c.1.1 * best.1.2 ≤ best.1.1 * c.1.2 := by
    by_contra hgt
    push_neg at hgt
    exact absurd (qltB_iff.mpr hgt) (by rw [hlt]; exact Bool.false_ne_true)
  rcases Nat.lt_or_ge (c.1.1 * best.1.2) (best.1.1 * c.1.2) with hstrict | hge
  · exact Or.inl (qltB_iff.mpr hstrict)
  · have heq : c.1.1 * best.1.2 = best.1.1 * c.1.2 := Nat.le_antisymm hle hge
    refine Or.inr ⟨qeqB_iff.mpr heq, ?_⟩
    have heq2 : qeqB best.1 c.1 = true := qeqB_iff.mpr heq.symm
    rcases hsec with hne | hslt
    · rw [heq2] at hne
      exact absurd rfl (Bool.eq_false_iff.mp hne)
    · by_cases hcb : strLtChars c.2.data best.2.data = true
      · exact Or.inr hcb
      · have h1 : strLtChars c.2.data best.2.data = false := Bool.eq_false_iff.mpr hcb
        exact Or.inl (data_inj (strLtChars_trichot h1 hslt))

theorem pairGt_true_le {c best : Score × String} (h : pairGt c best = true) :
    pairLe best c := by
  unfold pairGt at h
  rcases Bool.or_eq_true_iff.mp h with hlt | hand
  · exact Or.inl hlt
  · rw [Bool.and_eq_true] at hand
    exact Or.inr ⟨hand.1, Or.inr hand.2⟩

theorem pairLe_trans {a b c : Score × String}
    (ha : 0 < a.1.2) (hb : 0 < b.1.2) (hc : 0 < c.1.2)
    (h1 : pairLe a b) (h2 : pairLe b c) : pairLe a c := by
  rcases h1 with h1lt | ⟨h1eq, h1s⟩
  · rw [qltB_iff] at h1lt
    have key : a.1.1 * c.1.2 * b.1.2 < c.1.1 * a.1.2 * b.1.2 := by
      rcases h2 with h2lt | ⟨h2eq, _⟩
      · rw [qltB_iff] at h2lt
        calc a.1.1 * c.1.2 * b.1.2 = (a.1.1 * b.1.2) * c.1.2 := by ring
        _ < (b.1.1 * a.1.2) * c.1.2 := (Nat.mul_lt_mul_right hc).mpr h1lt
        _ = (b.1.1 * c.1.2) * a.1.2 := by ring
        _ ≤ (c.1.1 * b.1.2) * a.1.2 := Nat.mul_le_mul_right _ (Nat.le_of_lt h2lt)
        _ = c.1.1 * a.1.2 * b.1.2 := by ring
      · rw [qeqB_iff] at h2eq
        calc a.1.1 * c.1.2 * b.1.2 = (a.1.1 * b.1.2) * c.1.2 := by ring
        _ < (b.1.1 * a.1.2) * c.1.2 := (Nat.mul_lt_mul_right hc).mpr h1lt
        _ = (b.1.1 * c.1.2) * a.1.2 := by ring
        _ = (c.1.1 * b.1.2) * a.1.2 := by rw [h2eq]
        _ = c.1.1 * a.1.2 * b.1.2 := by ring
    exact Or.inl (qltB_iff.mpr ((Nat.mul_lt_mul_right hb).mp key))
  · rw [qeqB_iff] at h1eq
    rcases h2 with h2lt | ⟨h2eq, h2s⟩
    · rw [qltB_iff] at h2lt
      have key : a.1.1 * c.1.2 * b.1.2 < c.1.1 * a.1.2 * b.1.2 := by
        calc a.1.1 * c.1.2 * b.1.2 = (a.1.1 * b.1.2) * c.1.2 := by ring
        _ = (b.1.1 * a.1.2) * c.1.2 := by rw [h1eq]
        _ = (b.1.1 * c.1.2) * a.1.2 := by ring
        _ < (c.1.1 * b.1.2) * a.1.2 := (Nat.mul_lt_mul_right ha).mpr h2lt
        _ = c.1.1 * a.1.2 * b.1.2 := by ring
      exact Or.inl (qltB_iff.mpr ((Nat.mul_lt_mul_right hb).mp key))
    · rw [qeqB_iff] at h2eq
      have key : a.1.1 * c.1.2 * b.1.2 = c.1.1 * a.1.2 * b.1.2 := by
        calc a.1.1 * c.1.2 * b.1.2 = (a.1.1 * b.1.2) * c.1.2 := by ring
        _ = (b.1.1 * a.1.2) * c.1.2 := by rw [h1eq]
        _ = (b.1.1 * c.1.2) * a.1.2 := by ring
        _ = (c.1.1 * b.1.2) * a.1.2 := by rw [h2eq]
        _ = c.1.1 * a.1.2 * b.1.2 := by ring
      refine Or.inr ⟨qeqB_iff.mpr (Nat.eq_of_mul_eq_mul_right hb key), ?_⟩
      rcases h1s with h1e | h1l
      · rcases h2s with h2e | h2l
        · exact Or.inl (h1e.trans h2e)
        · exact Or.inr (h1e ▸ h2l)
      · rcases h2s with h2e | h2l
        · exact Or.inr (h2e ▸ h1l)
        · exact Or.inr (strLtChars_trans h1l h2l)

theorem bestPair_mem (p : Score × String) (ps : List (Score × String)) :
    bestPair p ps ∈ p :: ps := by
  induction ps generalizing p with
  | nil => exact List.mem_singleton.mpr rfl
  | cons c cs ih =>
    have hstep : bestPair p (c :: cs) = bestPair (if pairGt c p then c else p) cs := rfl
    rw [hstep]
    by_cases hg : pairGt c p = true
    · rw [if_pos hg]
      rcases List.mem_cons.mp (ih c) with h | h
      · rw [h]
        exact List.mem_cons_of_mem _ (List.mem_cons_self _ _)
      · exact List.mem_cons_of_mem _ (List.mem_cons_of_mem _ h)
    · rw [if_neg hg]
      rcases List.mem_cons.mp (ih p) with h | h
      · rw [h]
        exact List.mem_cons_self _ _
      · exact List.mem_cons_of_mem _ (List.mem_cons_of_mem _ h)

theorem bestPair_ubound (p : Score × String) (ps : List (Score × String))
    (hpos : ∀ x ∈ p :: ps, 0 < x.1.2) :
    ∀ q ∈ p :: ps, pairLe q (bestPair p ps) := by
  induction ps generalizing p with
  | nil =>
    intro q hq
    rw [List.mem_singleton.mp hq]
    exact pairLe_refl _
  | cons c cs ih =>
    intro q hq
    have hstep : bestPair p (c :: cs) = bestPair (if pairGt c p then c else p) cs := rfl
    rw [hstep]
    have hp' : (if pairGt c p then c else p) ∈ p :: c :: cs := by
      by_cases hg : pairGt c p = true
      · rw [if_pos hg]; exact List.mem_cons_of_mem _ (List.mem_cons_self _ _)
      · rw [if_neg hg]; exact List.mem_cons_self _ _
    have hpos' : ∀ x ∈ (if pairGt c p then c else p) :: cs, 0 < x.1.2 := by
      intro x hx
      rcases List.mem_cons.mp hx with hx1 | hx2
      · rw [hx1]
        exact hpos _ hp'
      · exact hpos _ (List.mem_cons_of_mem _ (List.mem_cons_of_mem _ hx2))
    have hbestmem : bestPair (if pairGt c p then c else p) cs
        ∈ (if pairGt c p then c else p) :: cs := bestPair_mem _ _
    have hbestmem2 : bestPair (if pairGt c p then c else p) cs ∈ p :: c :: cs := by
      rcases List.mem_cons.mp hbestmem with h | h
      · rw [h]; exact hp'
      · exact List.mem_cons_of_mem _ (List.mem_cons_of_mem _ h)
    have hmid : pairLe (if pairGt c p then c else p)
        (bestPair (if pairGt c p then c else p) cs) :=
      ih _ hpos' _ (List.mem_cons_self _ _)
    rcases List.mem_cons.mp hq with hq1 | hq2
    · subst hq1
      have hqp' : pairLe q (if pairGt c q then c else q) := by
        by_cases hg : pairGt c q = true
        · rw [if_pos hg]; exact pairGt_true_le hg
        · rw [if_neg hg]; exact pairLe_refl _
      exact pairLe_trans (hpos _ (List.mem_cons_self _ _)) (hpos _ hp') (hpos _ hbestmem2)
        hqp' hmid
    · rcases List.mem_cons.mp hq2 with hqc | hqcs
      · subst hqc
        have hqp' : pairLe q (if pairGt q p then q else p) := by
          by_cases hg : pairGt q p = true
          · rw [if_pos hg]; exact pairLe_refl _
          · rw [if_neg hg]; exact pairGt_false_le (Bool.eq_false_iff.mpr hg)
        exact pairLe_trans (hpos _ (List.mem_cons_of_mem _ (List.mem_cons_self _ _)))
          (hpos _ hp') (hpos _ hbestmem2) hqp' hmid
      · exact ih _ hpos' _ (List.mem_cons_of_mem _ hqcs)

theorem ratioPair_den_pos (a b : List Char) : 0 < (ratioPair a b).2 := by
  unfold ratioPair
  by_cases h : a.length + b.length = 0
  · rw [if_pos h]
    exact Nat.one_pos
  · rw [if_neg h]
    omega

theorem mem_scoredChoices {value : String} {choices : List String} {cutoff : Score}
    {x : Score × String} (hx : x ∈ scoredChoices value choices cutoff) :
    x = (choiceScore x.2 value, x.2) ∧ x.2 ∈ choices ∧ qleB cutoff x.1 = true := by
  rcases List.mem_filter.mp hx with ⟨hmem, hq⟩
  rcases List.mem_map.mp hmem with ⟨s, hs, hsx⟩
  refine ⟨?_, ?_, hq⟩
  · rw [← hsx]
  · rw [← hsx]; exact hs

/-
Claim C6.
-/

/-- C6 counterexample: on the tie between abcd and abcz (both score 6 of 7
against abc), get_closest_match returns abcz, the lexicographically greater
string, not the first-listed abcd, because nlargest compares (score, string)
tuples; and the scoring is case-sensitive, so WHITE finds no match in a
vocabulary holding white even though their case-insensitive similarity is
maximal. -/
theorem get_closest_match_tiebreak_counterexample :
    get_closest_match (some "abc") ["abcd", "abcz"] (3, 5) = some "abcz"
    ∧ get_closest_match (some "abc") ["abcd", "abcz"] (3, 5) ≠ some "abcd"
    ∧ get_closest_match (some "WHITE") ["white"] (3, 5) = none := by
  decide

/-- C6 (amended): for every non-empty candidate, vocabulary and cutoff,
get_closest_match returns null on a missing or empty candidate; it returns
null exactly when no vocabulary value reaches the cutoff under the
case-sensitive difflib ratio (a score exactly at the cutoff qualifies, since
the filter keeps scores at least the cutoff); and any returned match is a
vocabulary value whose score clears the cutoff and which is maximal among
the qualifying values in the order on (score, string) tuples, so score ties
are broken toward the lexicographically greatest string rather than
vocabulary order. -/
theorem get_closest_match_characterization (value : String) (choices : List String)
    (cutoff : Score) (hval : value ≠ "") :
    get_closest_match none choices cutoff = none
    ∧ get_closest_match (some "") choices cutoff = none
    ∧ (get_closest_match (some value) choices cutoff = none ↔
        ∀ x ∈ choices, qleB cutoff (choiceScore x value) = false)
    ∧ (∀ m, get_closest_match (some value) choices cutoff = some m →
        m ∈ choices ∧ qleB cutoff (choiceScore m value) = true
        ∧ ∀ x ∈ choices, qleB cutoff (choiceScore x value) = true →
            pairLe (choiceScore x value, x) (choiceScore m value, m)) := by
  have hunfold : get_closest_match (some value) choices cutoff
      = (match scoredChoices value choices cutoff with
         | [] => none
         | p :: ps => some (bestPair p ps).2) := by
    simp [get_closest_match, hval]
  refine ⟨rfl, by simp [get_closest_match], ?_, ?_⟩
  · rw [hunfold]
    cases hsc : scoredChoices value choices cutoff with
    | nil =>
      constructor
      · intro _ x hx
        cases h : qleB cutoff (choiceScore x value) with
        | false => rfl
        | true =>
          exfalso
          have hxmem : (choiceScore x value, x) ∈ scoredChoices value choices cutoff :=
            List.mem_filter.mpr ⟨List.mem_map_of_mem _ hx, h⟩
          rw [hsc] at hxmem
          exact absurd hxmem (List.not_mem_nil _)
      · intro _
        rfl
    | cons p ps =>
      constructor
      · intro habs
        exact Option.noConfusion habs
      · intro hall
        exfalso
        have hp := mem_scoredChoices (x := p)
          (by rw [hsc]; exact List.mem_cons_self _ _)
        have hfalse := hall p.2 hp.2.1
        have hfst : p.1 = choiceScore p.2 value := congrArg Prod.fst hp.1
        rw [hfst] at hp
        rw [hfalse] at hp
        exact Bool.false_ne_true hp.2.2
  · intro m hm
    rw [hunfold] at hm
    cases hsc : scoredChoices value choices cutoff with
    | nil =>
      rw [hsc] at hm
      exact Option.noConfusion hm
    | cons p ps =>
      rw [hsc] at hm
      have hmeq : (bestPair p ps).2 = m := Option.some.inj hm
      have hbmem : bestPair p ps ∈ scoredChoices value choices cutoff := by
        rw [hsc]
        exact bestPair_mem p ps
      have hbchar := mem_scoredChoices hbmem
      have hbeq : bestPair p ps = (choiceScore m value, m) := by
        rw [hbchar.1, hmeq]
      refine ⟨hmeq ▸ hbchar.2.1, ?_, ?_⟩
      · have hfst : (bestPair p ps).1 = choiceScore m value := congrArg Prod.fst hbeq
        rw [← hfst]
        exact hbchar.2.2
      · intro x hx hxq
        have hxmem : (choiceScore x value, x) ∈ scoredChoices value choices cutoff :=
          List.mem_filter.mpr ⟨List.mem_map_of_mem _ hx, hxq⟩
        rw [hsc] at hxmem
        have hpos : ∀ y ∈ p :: ps, 0 < y.1.2 := by
          intro y hy
          have hychar := mem_scoredChoices (x := y) (by rw [hsc]; exact hy)
          have hyfst : y.1 = choiceScore y.2 value := congrArg Prod.fst hychar.1
          rw [hyfst]
          exact ratioPair_den_pos _ _
        have hub := bestPair_ubound p ps hpos _ hxmem
        rw [hbeq] at hub
        exact hub

/-- Witness for C6: the amended theorem applied to the candidate abc, the
vocabulary abcd then abcz and the default cutoff. -/
theorem get_closest_match_characterization_witness :
    ("abc" ≠ "")
    ∧ (get_closest_match none ["abcd", "abcz"] (3, 5) = none
       ∧ get_closest_match (some "") ["abcd", "abcz"] (3, 5) = none
       ∧ (get_closest_match (some "abc") ["abcd", "abcz"] (3, 5) = none ↔
           ∀ x ∈ ["abcd", "abcz"], qleB (3, 5) (choiceScore x "abc") = false)
       ∧ (∀ m, get_closest_match (some "abc") ["abcd", "abcz"] (3, 5) = some m →
           m ∈ ["abcd", "abcz"] ∧ qleB (3, 5) (choiceScore m "abc") = true
           ∧ ∀ x ∈ ["abcd", "abcz"], qleB (3, 5) (choiceScore x "abc") = true →
               pairLe (choiceScore x "abc", x) (choiceScore m "abc", m))) :=
  ⟨by decide, get_closest_match_characterization "abc" ["abcd", "abcz"] (3, 5) (by decide)⟩
